import Mathlib

/-!
# Verification of the VoiceChat turn-taking orchestrator

Shallow embedding of the concurrency / state-machine core of the
VoiceChat repository (`state.py`, `audio/audio_stream.py`, `audio/vad.py`,
`asr/whisper_asr.py`, `llm/llm_client.py`, `main.py`) together with proofs
of its specified properties.

Modelling conventions:
* Python `queue.Queue` is a FIFO list: `put` appends at the tail,
  `get` takes the head; `put_nowait` on a bounded queue succeeds only
  while `len < maxsize`.
* Audio frames are lists of rational samples (`float32` blocks in the
  source); energies and timestamps are rationals.
* Each worker loop is embedded as a step function over an explicit state,
  folded over the sequence of inputs the loop observes, in the order it
  observes them.
-/

namespace VoiceChat

/-- An audio frame: one fixed-size block of mono PCM samples
(`float32` in the source, modelled as rationals). -/
abbrev Frame := List ℚ

/-- Per-frame energy, `float(np.mean(frame ** 2))` in `vad.py`
(frames are fixed-size nonempty blocks in the running system). -/
def frameEnergy (f : Frame) : ℚ :=
  (f.map fun x => x * x).sum / (f.length : ℚ)

/-! ## `state.py`: `BotState` and the `SharedState` barge-in flag -/

/-- `state.py` `BotState`. -/
inductive BotState
  | IDLE
  | LISTENING
  | THINKING
  | SPEAKING
deriving DecidableEq, Repr

/-- `SharedState.trigger_barge_in`: sets the flag unconditionally. -/
def trigger_barge_in (_flag : Bool) : Bool := true

/-- `SharedState.consume_barge_in`: returns the current flag value and
resets the flag to `False` (returned value, new flag). -/
def consume_barge_in (flag : Bool) : Bool × Bool := (flag, false)

/-- An operation on the barge-in flag of `SharedState`. -/
inductive BargeOp
  | trigger
  | consume
deriving DecidableEq, Repr

/-- Run a sequence of barge-in flag operations, returning the final flag. -/
def runBargeOps : List BargeOp → Bool → Bool
  | [], flag => flag
  | .trigger :: rest, flag => runBargeOps rest (trigger_barge_in flag)
  | .consume :: rest, flag => runBargeOps rest (consume_barge_in flag).2

/-! ## `audio/audio_stream.py`: `AudioInput._callback` fanout -/

/-- One bounded consumer channel (`queue.Queue(maxsize := cap)`). -/
structure Chan where
  cap : ℕ
  buf : List Frame
deriving DecidableEq, Repr

/-- `q.put_nowait(frame)` guarded by `except queue.Full: pass`:
append if there is room, otherwise drop the frame for this consumer. -/
def putNowaitOrDrop (c : Chan) (f : Frame) : Chan :=
  if c.buf.length < c.cap then { c with buf := c.buf ++ [f] } else c

/-- `AudioInput._callback` for one captured frame: a non-blocking
enqueue attempted on every consumer channel independently. -/
def fanoutCallback (chans : List Chan) (f : Frame) : List Chan :=
  chans.map fun q => putNowaitOrDrop q f

/-- The fanout over a whole capture sequence, one callback per frame. -/
def fanoutRun (chans : List Chan) (fs : List Frame) : List Chan :=
  fs.foldl fanoutCallback chans

/-- All frames of `fs` pushed into a single channel, in capture order. -/
def pushAll (c : Chan) (fs : List Frame) : Chan :=
  fs.foldl putNowaitOrDrop c

/-! ## `asr/whisper_asr.py`: pre-roll ring and utterance buffer -/

/-- `collections.deque(maxlen := n)` append: drop the oldest entry
once the ring is full. -/
def pushRing (n : ℕ) (r : List Frame) (f : Frame) : List Frame :=
  if r.length < n then r ++ [f] else r.tail ++ [f]

/-- What `WhisperASRWorker._run` observes, in the order it observes it:
VAD events drained from `vad_events_q` and frames read from `audio_q`. -/
inductive ASRMsg
  | voiceStarted
  | voiceEnded
  | frame (f : Frame)
deriving DecidableEq, Repr

/-- State of `WhisperASRWorker._run`; `calls` records the frame payloads
handed to `_transcribe_and_emit` (each call concatenates its payload and
invokes the recognizer), in call order. -/
structure ASRState where
  listening : Bool
  bufferFrames : List Frame
  preRoll : List Frame
  calls : List (List Frame)
deriving DecidableEq, Repr

/-- Initial state of `WhisperASRWorker._run`. -/
def asrInit : ASRState :=
  { listening := false, bufferFrames := [], preRoll := [], calls := [] }

/-- One observed message of `WhisperASRWorker._run` (`n` is the pre-roll
ring capacity `n_pre_roll_frames`):
* `voice_started`: begin listening, seed the utterance buffer from the
  pre-roll ring;
* `voice_ended`: stop listening, invoke the recognizer iff the buffer is
  non-empty, then reset the buffer;
* a frame: always append to the pre-roll ring, and to the utterance
  buffer iff listening. -/
def asrStep (n : ℕ) (s : ASRState) : ASRMsg → ASRState
  | .voiceStarted =>
      { s with listening := true, bufferFrames := s.preRoll }
  | .voiceEnded =>
      { s with
        listening := false
        bufferFrames := []
        calls := if s.bufferFrames.isEmpty then s.calls else s.calls ++ [s.bufferFrames] }
  | .frame f =>
      { s with
        preRoll := pushRing n s.preRoll f
        bufferFrames := if s.listening then s.bufferFrames ++ [f] else s.bufferFrames }

/-- `WhisperASRWorker._run` over a finite observation sequence. -/
def asrRun (n : ℕ) (msgs : List ASRMsg) (s : ASRState) : ASRState :=
  msgs.foldl (asrStep n) s

/-! ## `llm/llm_client.py`: `LLMWorker._run` -/

/-- One generation stream as observed by `LLMWorker._run`: the text
fragments successfully yielded, and whether iterating the stream then
raised mid-stream (`fails = true`) instead of ending naturally. -/
structure GenStream where
  fragments : List String
  fails : Bool
deriving DecidableEq, Repr

/-- The token-emission loop `for chunk in stream` of `LLMWorker._run`:
empty fragments are skipped (`if not token: continue`), every other
fragment is `put` on `llm_out_q`.  The stop events are cleared at the
start of each request and nothing sets them in a sequential run, so the
per-chunk stop check never fires here. -/
def emitToks : List String → List String
  | [] => []
  | t :: rest => if t = "" then emitToks rest else t :: emitToks rest

/-- Tokens put on `llm_out_q` for one request: the yielded fragments,
followed by the `"[LLM_END]"` sentinel only when the stream ends
naturally — a mid-stream exception jumps to the `except` handler before
the sentinel `put`, which logs and `continue`s. -/
def llmTurn (g : GenStream) : List String :=
  if g.fails then emitToks g.fragments else emitToks g.fragments ++ ["[LLM_END]"]

/-- `LLMWorker._run` over a queue of requests: each request is served to
completion in FIFO order (`gen` maps a request's prompt to the stream
the model produces for it); a failed stream is contained to its own
turn and the worker moves on to the next request. -/
def llmWorkerRun (gen : String → GenStream) : List String → List String
  | [] => []
  | r :: rest => llmTurn (gen r) ++ llmWorkerRun gen rest

/-! ## `main.py`: the orchestrator loop -/

/-- The state touched by one iteration of the `main` loop: the shared
bot state and barge-in flag, the two stop events, the queues the loop
drains or feeds, and the two sentence-streaming accumulators. -/
structure OrchState where
  botState : BotState
  bargeIn : Bool
  stopLlm : Bool
  stopTts : Bool
  llmInQ : List String
  llmOutQ : List String
  ttsTextQ : List String
  fullResponse : String
  sentenceBuffer : String
deriving DecidableEq, Repr

/-- The barge-in pass of `main`: consume the flag (always resetting it);
if it was set while THINKING or SPEAKING, set both stop events, reset
both accumulators, drain `llm_out_q` and `tts_text_q` empty via
`get_nowait` until `queue.Empty`, and transition to LISTENING. -/
def bargeInPass (s : OrchState) : OrchState :=
  let consumed := consume_barge_in s.bargeIn
  let s := { s with bargeIn := consumed.2 }
  if consumed.1 ∧ (s.botState = .THINKING ∨ s.botState = .SPEAKING) then
    { s with
      stopLlm := true
      stopTts := true
      fullResponse := ""
      sentenceBuffer := ""
      llmOutQ := []
      ttsTextQ := []
      botState := .LISTENING }
  else s

/-- Handling of one drained transcript in the transcript pass of `main`:
reset both accumulators, clear both stop events, transition to THINKING
and `put` the transcript on `llm_in_q`. -/
def transcriptStep (s : OrchState) (userText : String) : OrchState :=
  { s with
    fullResponse := ""
    sentenceBuffer := ""
    stopLlm := false
    stopTts := false
    botState := .THINKING
    llmInQ := s.llmInQ ++ [userText] }

/-- The transcript pass of `main`: drain every pending transcript from
`asr_text_q` (here `ts`, in FIFO order) and handle each in turn. -/
def transcriptPass (ts : List String) (s : OrchState) : OrchState :=
  ts.foldl transcriptStep s

/-- `any(c in ".?!" for c in tok)` of `main`. -/
def hasSentencePunct (tok : String) : Bool :=
  tok.toList.any fun c => c = '.' ∨ c = '?' ∨ c = '!'

/-- A character Python's `str.strip()` removes. -/
def isPyWhitespace (c : Char) : Bool :=
  c = ' ' ∨ c = '\t' ∨ c = '\n' ∨ c = '\x0b' ∨ c = '\x0c' ∨ c = '\r'

/-- Python `str.strip()`: drop leading and trailing whitespace. -/
def pyStrip (s : String) : String :=
  ⟨((s.toList.dropWhile isPyWhitespace).reverse.dropWhile isPyWhitespace).reverse⟩

/-- Handling of one drained token in the token pass of `main`:
* the `"[LLM_END]"` sentinel flushes a non-empty stripped leftover
  sentence to `tts_text_q` and resets both accumulators;
* any other token is appended to both accumulators, and if it contains
  sentence-terminal punctuation the stripped current sentence (when
  non-empty) is flushed to `tts_text_q` and the sentence buffer reset. -/
def tokenStep (s : OrchState) (tok : String) : OrchState :=
  if tok = "[LLM_END]" then
    let leftover := pyStrip s.sentenceBuffer
    { s with
      ttsTextQ := if leftover = "" then s.ttsTextQ else s.ttsTextQ ++ [leftover]
      fullResponse := ""
      sentenceBuffer := "" }
  else
    let full := s.fullResponse ++ tok
    let sb := s.sentenceBuffer ++ tok
    if hasSentencePunct tok then
      let sentence := pyStrip sb
      { s with
        fullResponse := full
        sentenceBuffer := ""
        ttsTextQ := if sentence = "" then s.ttsTextQ else s.ttsTextQ ++ [sentence] }
    else
      { s with fullResponse := full, sentenceBuffer := sb }

/-- The token pass of `main`: drain every pending token from
`llm_out_q` (here `toks`, in FIFO order) and handle each in turn. -/
def tokenPass (toks : List String) (s : OrchState) : OrchState :=
  toks.foldl tokenStep s

/-! ## `audio/vad.py`: `VADConfig` and `VADWorker._run` -/

/-- `vad.py` `VADConfig` (field names kept; durations in milliseconds). -/
structure VADConfig where
  min_speech_ms : ℕ
  silence_ms : ℕ
  sample_rate : ℕ
  block_size : ℕ
  calibration_ms : ℕ
  threshold_factor : ℚ
deriving DecidableEq, Repr

/-- The dataclass defaults of `vad.py` `VADConfig`. -/
def defaultVADConfig : VADConfig :=
  { min_speech_ms := 200, silence_ms := 300, sample_rate := 16000
    block_size := 320, calibration_ms := 800, threshold_factor := 2 }

/-- The running configuration `VAD_CFG` of `config.py`
(what `main` passes to `VADWorker`). -/
def mainVADConfig : VADConfig :=
  { min_speech_ms := 200, silence_ms := 800, sample_rate := 16000
    block_size := 320, calibration_ms := 800, threshold_factor := 8 }

/-- `frame_duration_s = block_size / sample_rate` (seconds). -/
def frameDurationS (cfg : VADConfig) : ℚ :=
  (cfg.block_size : ℚ) / (cfg.sample_rate : ℚ)

/-- `calibration_frames = int(calibration_ms / 1000.0 / frame_duration_s)`
(`int` truncation equals the floor for these non-negative values). -/
def calibrationFrames (cfg : VADConfig) : ℕ :=
  (⌊(cfg.calibration_ms : ℚ) / 1000 / frameDurationS cfg⌋).toNat

/-- Energies accumulated by the phase-1 calibration loop after `n`
iterations, with `reads k` the outcome of the `audio_q.get(timeout=1.0)`
of iteration `k` (`none` = `queue.Empty`, which the loop `continue`s on).
The loop body runs only while fewer than `target` energies have been
collected; shutdown is never requested in this run. -/
def calibCollect (target : ℕ) (reads : ℕ → Option Frame) : ℕ → List ℚ
  | 0 => []
  | n + 1 =>
    let acc := calibCollect target reads n
    if acc.length < target then
      match reads n with
      | none => acc
      | some f => acc ++ [frameEnergy f]
    else acc

/-- Phase 1 completes iff at some iteration the collected energies reach
the calibration target, letting the loop guard fail (shutdown aside). -/
def calibCompletes (target : ℕ) (reads : ℕ → Option Frame) : Prop :=
  ∃ n, target ≤ (calibCollect target reads n).length

/-- `np.median`: middle element of the sorted data for odd length,
mean of the two middle elements for even length. -/
def npMedian (xs : List ℚ) : ℚ :=
  let s := xs.mergeSort (· ≤ ·)
  let k := xs.length
  if k % 2 = 1 then s.getD (k / 2) 0
  else (s.getD (k / 2 - 1) 0 + s.getD (k / 2) 0) / 2

/-- Baseline chosen after the calibration loop exits: the fixed fallback
`1e-7` when no energies were collected, else the median energy. -/
def vadBaseline (energies : List ℚ) : ℚ :=
  if energies.isEmpty then 1 / 10000000 else npMedian energies

/-- `energy_threshold = baseline * threshold_factor`. -/
def energyThreshold (cfg : VADConfig) (energies : List ℚ) : ℚ :=
  vadBaseline energies * cfg.threshold_factor

/-- State of the phase-2 detection loop of `VADWorker._run`; `bargeFlag`
is the `SharedState` barge-in flag the worker triggers on promotion. -/
structure VADDetectState where
  isSpeaking : Bool
  speechStart : Option ℚ
  lastVoice : Option ℚ
  bargeFlag : Bool
deriving DecidableEq, Repr

/-- Detection-loop state on entering phase 2. -/
def vadDetectInit : VADDetectState :=
  { isSpeaking := false, speechStart := none, lastVoice := none, bargeFlag := false }

/-- A VAD event as put on `vad_events_q`, with its timestamp. -/
inductive VADEvent
  | voiceStarted (ts : ℚ)
  | voiceEnded (ts : ℚ)
deriving DecidableEq, Repr

/-- What one iteration of the detection loop observes: the outcome of
`audio_q.get(timeout=0.1)` (`none` = `queue.Empty`) and the wall-clock
instant `now` (the `time.time()` calls within one iteration are modelled
as this single instant). -/
structure VADRead where
  frame : Option Frame
  now : ℚ
deriving DecidableEq, Repr

/-- One iteration of the phase-2 detection loop of `VADWorker._run`,
returning the new state and the events put on `vad_events_q`:
* timeout: while speaking with a last-voice mark, emit `voice_ended`
  once wall-clock silence exceeds `silence_s`;
* frame above threshold: refresh the last-voice mark while speaking;
  otherwise start the pending timer, and promote (emit `voice_started`,
  trigger barge-in) once the timer has run `min_speech_s`;
* frame at or below threshold: same trailing-silence check as timeout
  while speaking, else clear the pending timer. -/
def vadDetectStep (cfg : VADConfig) (threshold : ℚ) (s : VADDetectState)
    (i : VADRead) : VADDetectState × List VADEvent :=
  let minSpeechS : ℚ := (cfg.min_speech_ms : ℚ) / 1000
  let silenceS : ℚ := (cfg.silence_ms : ℚ) / 1000
  match i.frame with
  | none =>
    match s.isSpeaking, s.lastVoice with
    | true, some lv =>
      if silenceS < i.now - lv then
        ({ s with isSpeaking := false, speechStart := none, lastVoice := none },
         [.voiceEnded i.now])
      else (s, [])
    | _, _ => (s, [])
  | some f =>
    let energy := frameEnergy f
    if threshold < energy then
      if s.isSpeaking then ({ s with lastVoice := some i.now }, [])
      else
        match s.speechStart with
        | none => ({ s with speechStart := some i.now }, [])
        | some t0 =>
          if minSpeechS ≤ i.now - t0 then
            ({ s with
                isSpeaking := true
                lastVoice := some i.now
                bargeFlag := trigger_barge_in s.bargeFlag },
             [.voiceStarted i.now])
          else (s, [])
    else
      match s.isSpeaking, s.lastVoice with
      | true, some lv =>
        if silenceS < i.now - lv then
          ({ s with isSpeaking := false, speechStart := none, lastVoice := none },
           [.voiceEnded i.now])
        else (s, [])
      | _, _ => ({ s with speechStart := none }, [])

/-- The phase-2 detection loop over a finite sequence of iteration
observations, collecting all emitted events in order. -/
def vadDetectRun (cfg : VADConfig) (threshold : ℚ) (s : VADDetectState) :
    List VADRead → VADDetectState × List VADEvent
  | [] => (s, [])
  | i :: is =>
    let step := vadDetectStep cfg threshold s i
    let rest := vadDetectRun cfg threshold step.1 is
    (rest.1, step.2 ++ rest.2)

/-- Whether an event is `voice_started`. -/
def isStartEvent : VADEvent → Bool
  | .voiceStarted _ => true
  | .voiceEnded _ => false

/-- Strict alternation of an event list: the first event matches
`expectStart` (`true` = must be `voice_started`) and each later event
alternates with its predecessor. -/
def alternatesFrom : Bool → List VADEvent → Bool
  | _, [] => true
  | expectStart, e :: rest =>
    (isStartEvent e = expectStart) && alternatesFrom (!expectStart) rest

/-- The orchestrator state right after startup: `main` builds empty
queues, clear events and empty accumulators, then transitions to
LISTENING ("Voice loop started"). -/
def orchInit : OrchState :=
  { botState := .LISTENING, bargeIn := false, stopLlm := false, stopTts := false
    llmInQ := [], llmOutQ := [], ttsTextQ := [], fullResponse := ""
    sentenceBuffer := "" }

/-! ## Helper lemmas -/

/-- A run containing no `trigger` keeps a cleared barge-in flag cleared. -/
lemma runBargeOps_no_trigger : ∀ (ops : List BargeOp), BargeOp.trigger ∉ ops →
    runBargeOps ops false = false
  | [], _ => rfl
  | .trigger :: _, h => absurd (List.mem_cons_self _ _) h
  | .consume :: rest, h =>
      runBargeOps_no_trigger rest fun hm => h (List.mem_cons_of_mem _ hm)

/-! ## Claim theorems -/

/-- C3: for every sequence of operations on the `SharedState` barge-in
flag, after the flag is set once (`trigger_barge_in`) and consumed once
(`consume_barge_in`), a further consume with no intervening trigger
returns `false`; and consuming always resets the flag to `false`,
regardless of what the consumer does with the returned value. -/
theorem barge_in_set_once_consumed_once (ops mid : List BargeOp) (b : Bool)
    (hmid : BargeOp.trigger ∉ mid) :
    (consume_barge_in
      (runBargeOps mid
        (consume_barge_in (trigger_barge_in (runBargeOps ops b))).2)).1 = false
    ∧ ∀ c : Bool, (consume_barge_in c).2 = false := by
  refine ⟨?_, fun _ => rfl⟩
  have h2 : (consume_barge_in (trigger_barge_in (runBargeOps ops b))).2 = false := rfl
  rw [h2, runBargeOps_no_trigger mid hmid]
  rfl

/-- Witness for C3 at a concrete operation sequence. -/
theorem barge_in_set_once_consumed_once_witness :
    BargeOp.trigger ∉ [BargeOp.consume] ∧
    ((consume_barge_in
      (runBargeOps [BargeOp.consume]
        (consume_barge_in (trigger_barge_in (runBargeOps [] false))).2)).1 = false
    ∧ ∀ c : Bool, (consume_barge_in c).2 = false) :=
  ⟨by decide, barge_in_set_once_consumed_once [] [BargeOp.consume] false (by decide)⟩

/-- C6: processing `voice_ended` twice in a row with no intervening
frames invokes the recognizer at most once: the first `voice_ended`
calls it exactly when the utterance buffer is non-empty and resets the
buffer, so the second finds an empty buffer and makes no call. -/
theorem voice_ended_twice_one_call (n : ℕ) (s : ASRState) :
    (asrStep n s .voiceEnded).bufferFrames = []
    ∧ (asrStep n s .voiceEnded).calls
        = (if s.bufferFrames.isEmpty then s.calls else s.calls ++ [s.bufferFrames])
    ∧ (asrStep n (asrStep n s .voiceEnded) .voiceEnded).calls
        = (asrStep n s .voiceEnded).calls
    ∧ (asrStep n (asrStep n s .voiceEnded) .voiceEnded).bufferFrames = [] := by
  refine ⟨rfl, rfl, ?_, rfl⟩
  simp [asrStep]

/-- C2: whenever the orchestrator consumes a true barge-in flag while
THINKING or SPEAKING, the barge-in pass raises both cancel signals,
discards all buffered tokens and queued sentences, empties both turn
accumulators, and leaves the state LISTENING with the flag cleared. -/
theorem barge_in_pass_cancels_turn (s : OrchState)
    (hflag : s.bargeIn = true)
    (hstate : s.botState = .THINKING ∨ s.botState = .SPEAKING) :
    (bargeInPass s).stopLlm = true
    ∧ (bargeInPass s).stopTts = true
    ∧ (bargeInPass s).llmOutQ = []
    ∧ (bargeInPass s).ttsTextQ = []
    ∧ (bargeInPass s).fullResponse = ""
    ∧ (bargeInPass s).sentenceBuffer = ""
    ∧ (bargeInPass s).botState = .LISTENING
    ∧ (bargeInPass s).bargeIn = false := by
  have hcond : (consume_barge_in s.bargeIn).1
      ∧ (s.botState = BotState.THINKING ∨ s.botState = BotState.SPEAKING) := by
    rw [consume_barge_in, hflag]
    exact ⟨rfl, hstate⟩
  simp [bargeInPass, if_pos hcond]
  rfl

/-- Witness for C2 at a concrete mid-turn state. -/
theorem barge_in_pass_cancels_turn_witness :
    let s : OrchState :=
      { botState := .SPEAKING, bargeIn := true, stopLlm := false, stopTts := false
        llmInQ := [], llmOutQ := ["tok"], ttsTextQ := ["sent."]
        fullResponse := "tok", sentenceBuffer := "tok" }
    (bargeInPass s).stopLlm = true
    ∧ (bargeInPass s).stopTts = true
    ∧ (bargeInPass s).llmOutQ = []
    ∧ (bargeInPass s).ttsTextQ = []
    ∧ (bargeInPass s).fullResponse = ""
    ∧ (bargeInPass s).sentenceBuffer = ""
    ∧ (bargeInPass s).botState = .LISTENING
    ∧ (bargeInPass s).bargeIn = false :=
  barge_in_pass_cancels_turn _ rfl (Or.inr rfl)

/-- C5: on the generation stream `"Hello"`, `" there."`, `"[LLM_END]"`,
the token pass flushes nothing on `"Hello"`, flushes exactly the one
sentence `"Hello there."` on the token carrying the terminal
punctuation, and flushes nothing further on the end-of-stream marker. -/
theorem hello_there_single_sentence :
    (tokenPass ["Hello"] orchInit).ttsTextQ = []
    ∧ (tokenPass ["Hello", " there."] orchInit).ttsTextQ = ["Hello there."]
    ∧ (tokenPass ["Hello", " there.", "[LLM_END]"] orchInit).ttsTextQ
        = ["Hello there."] := by
  refine ⟨rfl, ?_, ?_⟩ <;> rfl

/-- The fanout over a capture sequence acts on each consumer channel
independently: it equals the per-channel fold of non-blocking puts. -/
lemma fanoutRun_eq_map_pushAll (fs : List Frame) :
    ∀ chans : List Chan, fanoutRun chans fs = chans.map fun c => pushAll c fs := by
  induction fs with
  | nil => intro chans; simp [fanoutRun, pushAll]
  | cons f fs ih =>
    intro chans
    have h1 : fanoutRun chans (f :: fs) = fanoutRun (fanoutCallback chans f) fs := rfl
    rw [h1, ih, fanoutCallback, List.map_map]
    rfl

/-- A channel never loses capacity through puts. -/
lemma pushAll_cap (fs : List Frame) : ∀ c : Chan, (pushAll c fs).cap = c.cap := by
  induction fs with
  | nil => intro c; rfl
  | cons f fs ih =>
    intro c
    have h1 : pushAll c (f :: fs) = pushAll (putNowaitOrDrop c f) fs := rfl
    rw [h1, ih]
    unfold putNowaitOrDrop
    split <;> rfl

/-- Buffer contents after pushing a capture sequence through a single
bounded channel: exactly the frames that fit, oldest first; once the
channel is full every further frame is dropped for that consumer. -/
lemma pushAll_buf (fs : List Frame) :
    ∀ c : Chan, (pushAll c fs).buf = c.buf ++ fs.take (c.cap - c.buf.length) := by
  induction fs with
  | nil => intro c; simp [pushAll]
  | cons f fs ih =>
    intro c
    have h1 : pushAll c (f :: fs) = pushAll (putNowaitOrDrop c f) fs := rfl
    rw [h1, ih]
    unfold putNowaitOrDrop
    split
    · next hlt =>
      have hpos : 0 < c.cap - c.buf.length := Nat.sub_pos_of_lt hlt
      obtain ⟨k, hk⟩ : ∃ k, c.cap - c.buf.length = k + 1 :=
        ⟨c.cap - c.buf.length - 1, by omega⟩
      simp only [List.length_append, List.length_singleton]
      have : c.cap - (c.buf.length + 1) = k := by omega
      rw [this, hk, List.take_succ_cons, List.append_assoc]
      rfl
    · next hge =>
      have h0 : c.cap - c.buf.length = 0 := by omega
      simp [h0]

/-- C8: each captured frame is offered to every consumer channel
independently; with one channel at capacity `N` and an empty sibling of
capacity at least `N + 1`, pushing `N + 1` frames leaves the first
channel holding exactly the first `N` frames (frame `N + 1` dropped for
it alone) while the sibling receives all `N + 1` frames. -/
theorem fanout_backpressure (N M : ℕ) (fs : List Frame)
    (hlen : fs.length = N + 1) (hM : N + 1 ≤ M) :
    fanoutRun [⟨N, []⟩, ⟨M, []⟩] fs = [⟨N, fs.take N⟩, ⟨M, fs⟩]
    ∧ (fs.take N).length = N := by
  have h1 := pushAll_buf fs ⟨N, []⟩
  have h2 := pushAll_buf fs ⟨M, []⟩
  have hc1 := pushAll_cap fs ⟨N, []⟩
  have hc2 := pushAll_cap fs ⟨M, []⟩
  simp only [List.nil_append, List.length_nil, Nat.sub_zero] at h1 h2
  have htake : fs.take M = fs := List.take_of_length_le (by omega)
  constructor
  · rw [fanoutRun_eq_map_pushAll]
    simp only [List.map_cons, List.map_nil]
    congr 1
    · cases hpush : pushAll ⟨N, []⟩ fs with
      | mk cap buf => simp only [hpush] at h1 hc1; simp [h1, hc1]
    · congr 1
      cases hpush : pushAll ⟨M, []⟩ fs with
      | mk cap buf => simp only [hpush] at h2 hc2; simp [h2, hc2, htake]
  · rw [List.length_take, hlen]
    omega

/-- Witness for C8 with `N = 2`, `M = 5` and three captured frames. -/
theorem fanout_backpressure_witness :
    ([[(0:ℚ)], [1], [2]] : List Frame).length = 2 + 1 ∧ 2 + 1 ≤ 5 ∧
    (fanoutRun [⟨2, []⟩, ⟨5, []⟩] [[(0:ℚ)], [1], [2]]
        = [⟨2, [[(0:ℚ)], [1]]⟩, ⟨5, [[(0:ℚ)], [1], [2]]⟩]
    ∧ (([[(0:ℚ)], [1], [2]] : List Frame).take 2).length = 2) := by
  refine ⟨rfl, by omega, ?_⟩
  have h := fanout_backpressure 2 5 [[(0:ℚ)], [1], [2]] rfl (by omega)
  simpa using h

/-- Running the ASR worker over a concatenation of observation
sequences is running it over each in turn. -/
lemma asrRun_append (n : ℕ) (a b : List ASRMsg) (s : ASRState) :
    asrRun n (a ++ b) s = asrRun n b (asrRun n a s) :=
  List.foldl_append _ _ _ _

/-- While the ring has room for the whole sequence, appending to the
pre-roll ring is plain appending: no frame is overwritten. -/
lemma foldl_pushRing_of_le (n : ℕ) :
    ∀ (fs : List Frame) (r : List Frame), r.length + fs.length ≤ n →
      fs.foldl (pushRing n) r = r ++ fs := by
  intro fs
  induction fs with
  | nil => intro r _; simp
  | cons f fs ih =>
    intro r h
    have hlt : r.length < n := by simp at h; omega
    have hstep : pushRing n r f = r ++ [f] := by rw [pushRing, if_pos hlt]
    have : (f :: fs).foldl (pushRing n) r = fs.foldl (pushRing n) (r ++ [f]) := by
      rw [List.foldl_cons, hstep]
    rw [this, ih (r ++ [f]) (by simp at h ⊢; omega)]
    simp

/-- Frames observed while not listening only refresh the pre-roll ring:
the utterance buffer, the listening flag and the call log are untouched. -/
lemma asrRun_frames_idle (n : ℕ) :
    ∀ (fs : List Frame) (s : ASRState), s.listening = false →
      asrRun n (fs.map .frame) s
        = { s with preRoll := fs.foldl (pushRing n) s.preRoll } := by
  intro fs
  induction fs with
  | nil => intro s _; rfl
  | cons f fs ih =>
    intro s hs
    have hstep : asrStep n s (.frame f)
        = { s with preRoll := pushRing n s.preRoll f } := by
      simp [asrStep, hs]
    have h1 : asrRun n ((f :: fs).map .frame) s
        = asrRun n (fs.map .frame) (asrStep n s (.frame f)) := rfl
    rw [h1, hstep]
    exact ih _ hs

/-- Frames observed while listening refresh the pre-roll ring and are
appended, in arrival order, to the utterance buffer. -/
lemma asrRun_frames_listening (n : ℕ) :
    ∀ (fs : List Frame) (s : ASRState), s.listening = true →
      asrRun n (fs.map .frame) s
        = { s with
            preRoll := fs.foldl (pushRing n) s.preRoll
            bufferFrames := s.bufferFrames ++ fs } := by
  intro fs
  induction fs with
  | nil => intro s _; simp [asrRun]
  | cons f fs ih =>
    intro s hs
    have hstep : asrStep n s (.frame f)
        = { s with
            preRoll := pushRing n s.preRoll f
            bufferFrames := s.bufferFrames ++ [f] } := by
      simp [asrStep, hs]
    have h1 : asrRun n ((f :: fs).map .frame) s
        = asrRun n (fs.map .frame) (asrStep n s (.frame f)) := rfl
    rw [h1, hstep]
    have h2 := ih { s with
        preRoll := pushRing n s.preRoll f
        bufferFrames := s.bufferFrames ++ [f] } hs
    rw [h2]
    simp

/-- C7: for frame sequences that never exceed the pre-roll capacity
before `voice_started`, the utterance payload handed to the recognizer
is exactly the pre-roll ring contents at the instant `voice_started` is
processed, in arrival order, followed by the frames received between
`voice_started` and `voice_ended`. -/
theorem utterance_payload_starts_with_preroll (n : ℕ) (fs₁ fs₂ : List Frame)
    (hcap : fs₁.length ≤ n) (hne : fs₁ ++ fs₂ ≠ []) :
    (asrRun n (fs₁.map .frame ++ [.voiceStarted]) asrInit).preRoll = fs₁
    ∧ (asrRun n (fs₁.map .frame ++ [.voiceStarted]) asrInit).bufferFrames = fs₁
    ∧ (asrRun n
        (fs₁.map .frame ++ [.voiceStarted] ++ fs₂.map .frame ++ [.voiceEnded])
        asrInit).calls = [fs₁ ++ fs₂] := by
  have hidle : asrRun n (fs₁.map .frame) asrInit
      = { asrInit with preRoll := fs₁.foldl (pushRing n) [] } :=
    asrRun_frames_idle n fs₁ asrInit rfl
  have hring : fs₁.foldl (pushRing n) ([] : List Frame) = fs₁ := by
    have := foldl_pushRing_of_le n fs₁ [] (by simpa using hcap)
    simpa using this
  have hmid : asrRun n (fs₁.map .frame ++ [.voiceStarted]) asrInit
      = { listening := true, bufferFrames := fs₁, preRoll := fs₁, calls := [] } := by
    rw [asrRun_append, hidle, hring]
    rfl
  refine ⟨by rw [hmid], by rw [hmid], ?_⟩
  have hsplit : fs₁.map ASRMsg.frame ++ [ASRMsg.voiceStarted] ++ fs₂.map .frame ++ [.voiceEnded]
      = (fs₁.map ASRMsg.frame ++ [ASRMsg.voiceStarted]) ++ (fs₂.map .frame ++ [.voiceEnded]) := by
    simp
  rw [hsplit, asrRun_append, hmid, asrRun_append,
      asrRun_frames_listening n fs₂ _ rfl]
  simp only [asrRun, List.foldl_cons, List.foldl_nil, asrStep, List.nil_append]
  rw [if_neg (by simpa using hne)]

/-- Witness for C7: ring capacity 10, two pre-roll frames, one
in-utterance frame. -/
theorem utterance_payload_starts_with_preroll_witness :
    ([[(1:ℚ)], [2]] : List Frame).length ≤ 10
    ∧ (([[(1:ℚ)], [2]] : List Frame) ++ [[3]] ≠ [])
    ∧ ((asrRun 10 (([[(1:ℚ)], [2]] : List Frame).map .frame ++ [.voiceStarted]) asrInit).preRoll
        = [[(1:ℚ)], [2]]
    ∧ (asrRun 10 (([[(1:ℚ)], [2]] : List Frame).map .frame ++ [.voiceStarted]) asrInit).bufferFrames
        = [[(1:ℚ)], [2]]
    ∧ (asrRun 10
        (([[(1:ℚ)], [2]] : List Frame).map .frame ++ [.voiceStarted]
          ++ ([[(3:ℚ)]] : List Frame).map .frame ++ [.voiceEnded]) asrInit).calls
        = [([[(1:ℚ)], [2]] : List Frame) ++ [[3]]]) := by
  refine ⟨by decide, by decide, ?_⟩
  exact utterance_payload_starts_with_preroll 10 [[(1:ℚ)], [2]] [[3]]
    (by decide) (by decide)

/-- The LLM worker serves a concatenation of request queues by serving
each queue in turn. -/
lemma llmWorkerRun_append (gen : String → GenStream) :
    ∀ a b : List String,
      llmWorkerRun gen (a ++ b) = llmWorkerRun gen a ++ llmWorkerRun gen b := by
  intro a
  induction a with
  | nil => intro b; simp [llmWorkerRun]
  | cons r rest ih =>
    intro b
    simp only [List.cons_append, llmWorkerRun, List.append_eq, ih, List.append_assoc]

/-- The transcript pass appends every drained transcript to `llm_in_q`
in FIFO order, and (when the pass drained anything) leaves the fields
written by the last `transcriptStep`: accumulators empty, both stop
events cleared, state THINKING; the other fields are untouched. -/
lemma transcriptPass_spec :
    ∀ (ts : List String) (s : OrchState), ts ≠ [] →
      transcriptPass ts s
        = { botState := .THINKING, bargeIn := s.bargeIn, stopLlm := false
            stopTts := false, llmInQ := s.llmInQ ++ ts, llmOutQ := s.llmOutQ
            ttsTextQ := s.ttsTextQ, fullResponse := "", sentenceBuffer := "" } := by
  intro ts
  induction ts with
  | nil => intro s h; exact absurd rfl h
  | cons t rest ih =>
    intro s _
    have h1 : transcriptPass (t :: rest) s = transcriptPass rest (transcriptStep s t) := rfl
    rcases rest with _ | ⟨t', rest'⟩
    · simp [h1, transcriptPass, transcriptStep]
    · rw [h1, ih _ (by simp)]
      simp [transcriptStep]

/-- C4 counterexample: draining the transcripts `"a"`, `"b"` in one pass
submits BOTH as generation requests; the worker then generates each to
completion in FIFO order, so the output stream still carries the first
transcript's reply tokens — the earlier turn is not superseded, which
falsifies "only the last transcript's generation proceeds". -/
theorem transcript_pass_earlier_generation_not_superseded :
    (transcriptPass ["a", "b"] orchInit).llmInQ = ["a", "b"]
    ∧ llmWorkerRun (fun t => ⟨[t], false⟩) (transcriptPass ["a", "b"] orchInit).llmInQ
        = ["a", "[LLM_END]", "b", "[LLM_END]"]
    ∧ llmWorkerRun (fun t => ⟨[t], false⟩) (transcriptPass ["a", "b"] orchInit).llmInQ
        ≠ llmWorkerRun (fun t => ⟨[t], false⟩) ["b"] := by
  refine ⟨rfl, rfl, ?_⟩
  decide

/-- C4 amended: each drained transcript resets both turn accumulators,
clears both stop events, transitions to THINKING and enqueues a
generation request; within the pass the last transcript's writes win
for the shared fields, but every drained transcript's request stays on
`llm_in_q` in FIFO order and each is generated to completion in turn —
no earlier turn of the same pass is cancelled or superseded. -/
theorem transcript_pass_last_write_wins_all_generate
    (ts : List String) (s : OrchState) (gen : String → GenStream)
    (hne : ts ≠ []) :
    (transcriptPass ts s).llmInQ = s.llmInQ ++ ts
    ∧ (transcriptPass ts s).botState = .THINKING
    ∧ (transcriptPass ts s).fullResponse = ""
    ∧ (transcriptPass ts s).sentenceBuffer = ""
    ∧ (transcriptPass ts s).stopLlm = false
    ∧ (transcriptPass ts s).stopTts = false
    ∧ llmWorkerRun gen (transcriptPass ts s).llmInQ
        = llmWorkerRun gen s.llmInQ ++ llmWorkerRun gen ts := by
  have h := transcriptPass_spec ts s hne
  rw [h]
  exact ⟨rfl, rfl, rfl, rfl, rfl, rfl, llmWorkerRun_append gen _ _⟩

/-- Witness for the amended C4 on the transcripts `"a"`, `"b"`. -/
theorem transcript_pass_last_write_wins_all_generate_witness :
    (["a", "b"] : List String) ≠ []
    ∧ ((transcriptPass ["a", "b"] orchInit).llmInQ = orchInit.llmInQ ++ ["a", "b"]
    ∧ (transcriptPass ["a", "b"] orchInit).botState = .THINKING
    ∧ (transcriptPass ["a", "b"] orchInit).fullResponse = ""
    ∧ (transcriptPass ["a", "b"] orchInit).sentenceBuffer = ""
    ∧ (transcriptPass ["a", "b"] orchInit).stopLlm = false
    ∧ (transcriptPass ["a", "b"] orchInit).stopTts = false
    ∧ llmWorkerRun (fun t => ⟨[t], false⟩) (transcriptPass ["a", "b"] orchInit).llmInQ
        = llmWorkerRun (fun t => ⟨[t], false⟩) orchInit.llmInQ
          ++ llmWorkerRun (fun t => ⟨[t], false⟩) ["a", "b"]) :=
  ⟨by decide,
   transcript_pass_last_write_wins_all_generate ["a", "b"] orchInit
     (fun t => ⟨[t], false⟩) (by decide)⟩

/-- Every token the emission loop puts on `llm_out_q` was yielded by the
stream. -/
lemma mem_emitToks {x : String} :
    ∀ {l : List String}, x ∈ emitToks l → x ∈ l := by
  intro l
  induction l with
  | nil => intro h; exact absurd h (by simp [emitToks])
  | cons t rest ih =>
    intro h
    rw [emitToks] at h
    by_cases ht : t = ""
    · rw [if_pos ht] at h
      exact List.mem_cons_of_mem _ (ih h)
    · rw [if_neg ht] at h
      rcases List.mem_cons.mp h with h | h
      · exact h ▸ List.mem_cons_self _ _
      · exact List.mem_cons_of_mem _ (ih h)

/-- C9 counterexample: a stream that fails after yielding `"Hi"` leaves
the token queue WITHOUT a terminating `"[LLM_END]"` marker — the
sentinel `put` sits after the streaming loop inside the `try`, so the
mid-stream exception skips it — whereas natural completion ends with
the marker.  The downstream token pass therefore does not observe the
same end-of-stream marker as on natural completion. -/
theorem llm_failure_omits_end_marker :
    llmTurn ⟨["Hi"], true⟩ = ["Hi"]
    ∧ (llmTurn ⟨["Hi"], true⟩).getLast? ≠ some "[LLM_END]"
    ∧ (llmTurn ⟨["Hi"], false⟩).getLast? = some "[LLM_END]" := by
  refine ⟨rfl, ?_, rfl⟩
  decide

/-- C9 amended: on a mid-stream generation failure the worker logs the
error and abandons the turn: the downstream pass sees exactly the
tokens yielded before the failure and no end-of-stream marker (unless
the stream itself yielded one), and the failure does not propagate
beyond that turn — the worker serves the remaining requests unchanged. -/
theorem llm_failure_contained_without_end_marker
    (gen : String → GenStream) (r : String) (rest : List String)
    (hfail : (gen r).fails = true)
    (hnotok : "[LLM_END]" ∉ (gen r).fragments) :
    llmWorkerRun gen (r :: rest)
        = emitToks (gen r).fragments ++ llmWorkerRun gen rest
    ∧ "[LLM_END]" ∉ llmTurn (gen r) := by
  constructor
  · rw [llmWorkerRun, llmTurn, if_pos hfail]
  · rw [llmTurn, if_pos hfail]
    exact fun h => hnotok (mem_emitToks h)

/-- Witness for the amended C9: one failing stream, one further request. -/
theorem llm_failure_contained_without_end_marker_witness :
    ((fun _ : String => (⟨["Hi"], true⟩ : GenStream)) "q").fails = true
    ∧ "[LLM_END]" ∉ ((fun _ : String => (⟨["Hi"], true⟩ : GenStream)) "q").fragments
    ∧ (llmWorkerRun (fun _ => ⟨["Hi"], true⟩) ["q", "next"]
        = emitToks ((fun _ : String => (⟨["Hi"], true⟩ : GenStream)) "q").fragments
          ++ llmWorkerRun (fun _ => ⟨["Hi"], true⟩) ["next"]
    ∧ "[LLM_END]" ∉ llmTurn ((fun _ : String => (⟨["Hi"], true⟩ : GenStream)) "q")) :=
  ⟨rfl, by decide,
   llm_failure_contained_without_end_marker (fun _ => ⟨["Hi"], true⟩) "q" ["next"]
     rfl (by decide)⟩

/-- When every read times out, the calibration loop never collects an
energy: the `queue.Empty` handler just `continue`s. -/
lemma calibCollect_all_timeouts (target : ℕ) :
    ∀ n : ℕ, calibCollect target (fun _ => none) n = [] := by
  intro n
  induction n with
  | zero => rfl
  | succ n ih => simp [calibCollect, ih]

/-- The running configuration asks for 40 calibration frames
(`int(800 / 1000.0 / 0.02)`). -/
lemma calibrationFrames_main : calibrationFrames mainVADConfig = 40 := by
  have h : (mainVADConfig.calibration_ms : ℚ) / 1000 / frameDurationS mainVADConfig
      = ((40 : ℤ) : ℚ) := by
    simp only [frameDurationS, mainVADConfig]
    norm_num
  rw [calibrationFrames, h, Int.floor_intCast]
  rfl

/-- C1 (divergence witness): with an audio queue that never yields a
frame and shutdown never requested, the phase-1 calibration loop of
`VADWorker._run` never completes — it keeps retrying the timed-out read
forever, so phase 2 is never reached.  The fixed fallback threshold
(`1e-7 × threshold_factor`, i.e. `8e-7` under the running
configuration) is only selected on a loop exit with no collected
energies, which requires shutdown. -/
theorem vad_calibration_never_completes_without_audio :
    ¬ calibCompletes (calibrationFrames mainVADConfig) (fun _ => none)
    ∧ energyThreshold mainVADConfig [] = 8 / 10000000 := by
  constructor
  · rintro ⟨n, hn⟩
    rw [calibCollect_all_timeouts, calibrationFrames_main] at hn
    simp at hn
  · norm_num [energyThreshold, vadBaseline, mainVADConfig]

/-- Each detection-loop iteration emits nothing and keeps its
speaking/silent mode, or emits exactly one `voice_started` while
promoting from silent to speaking, or emits exactly one `voice_ended`
while demoting from speaking to silent. -/
lemma vadDetectStep_cases (cfg : VADConfig) (th : ℚ) (s : VADDetectState)
    (i : VADRead) :
    ((vadDetectStep cfg th s i).2 = []
      ∧ (vadDetectStep cfg th s i).1.isSpeaking = s.isSpeaking)
    ∨ ((vadDetectStep cfg th s i).2 = [VADEvent.voiceStarted i.now]
      ∧ s.isSpeaking = false ∧ (vadDetectStep cfg th s i).1.isSpeaking = true)
    ∨ ((vadDetectStep cfg th s i).2 = [VADEvent.voiceEnded i.now]
      ∧ s.isSpeaking = true ∧ (vadDetectStep cfg th s i).1.isSpeaking = false) := by
  rcases s with ⟨sp, ss, lv, bf⟩
  rcases i with ⟨fr, now⟩
  rcases fr with _ | f <;> cases sp <;> rcases ss with _ | t0 <;> rcases lv with _ | t1 <;>
    simp only [vadDetectStep] <;> (try split_ifs) <;> simp

/-- Events of a detection run starting in state `s` strictly alternate,
beginning with `voice_started` when `s` is silent and with
`voice_ended` when `s` is speaking. -/
lemma vadDetectRun_alternatesFrom (cfg : VADConfig) (th : ℚ) :
    ∀ (inputs : List VADRead) (s : VADDetectState),
      alternatesFrom (!s.isSpeaking) (vadDetectRun cfg th s inputs).2 = true := by
  intro inputs
  induction inputs with
  | nil => intro s; rfl
  | cons i is ih =>
    intro s
    have hrun : (vadDetectRun cfg th s (i :: is)).2
        = (vadDetectStep cfg th s i).2
          ++ (vadDetectRun cfg th (vadDetectStep cfg th s i).1 is).2 := rfl
    rw [hrun]
    have hrest := ih (vadDetectStep cfg th s i).1
    rcases vadDetectStep_cases cfg th s i with ⟨h2, h1⟩ | ⟨h2, hs, h1⟩ | ⟨h2, hs, h1⟩
    · rw [h2, List.nil_append]
      rw [h1] at hrest
      exact hrest
    · rw [h2, hs, List.cons_append, List.nil_append]
      rw [h1] at hrest
      simp only [Bool.not_true] at hrest
      simp [alternatesFrom, isStartEvent, hrest]
    · rw [h2, hs, List.cons_append, List.nil_append]
      rw [h1] at hrest
      simp only [Bool.not_false] at hrest
      simp [alternatesFrom, isStartEvent, hrest]

/-- C10: over any input sequence, the events the detection loop puts on
`vad_events_q` strictly alternate beginning with `voice_started` (never
two consecutive events of the same kind), and every event emitted by a
single iteration is `voice_started` exactly when the loop was not in
the speaking state — in particular `voice_ended` is emitted only while
speaking. -/
theorem vad_events_strictly_alternate (cfg : VADConfig) (th : ℚ)
    (inputs : List VADRead) :
    alternatesFrom true (vadDetectRun cfg th vadDetectInit inputs).2 = true
    ∧ ∀ (s : VADDetectState) (i : VADRead),
        ((vadDetectStep cfg th s i).2.all fun e =>
          isStartEvent e = !s.isSpeaking) = true := by
  constructor
  · have h := vadDetectRun_alternatesFrom cfg th inputs vadDetectInit
    simpa [vadDetectInit] using h
  · intro s i
    rcases vadDetectStep_cases cfg th s i with ⟨h2, _⟩ | ⟨h2, hs, _⟩ | ⟨h2, hs, _⟩
    · simp [h2]
    · simp [h2, hs, isStartEvent]
    · simp [h2, hs, isStartEvent]

end VoiceChat
